import Mathlib

/-!
Verification of the `anchor` repository's core: the port discovery engine
(`src/port.rs`) and the tunnel lifecycle manager (`src/tunnel.rs`).

Strings are modelled as `List Char` (the relevant separators and needles are
all ASCII, so Rust's byte-index slicing coincides with character indexing on
every input the functions distinguish).  Fallible Rust code returning
`Option`/`Result` becomes `Option`/`Except`; a possible `panic!` from an
unchecked index is modelled as `Except.error`, so "never panics" becomes
"never returns `Except.error`".  External process invocations (lsof, ssh,
kill) are modelled as explicit oracle parameters describing the invocation's
outcome.
-/

namespace Anchor

abbrev Str := List Char

/-- Accumulator worker for `splitWS`: `cur` holds the (reversed) current
    token. -/
def splitWSAux : Str → Str → List Str
  | cur, [] => if cur.isEmpty then [] else [cur.reverse]
  | cur, c :: cs =>
    if c.isWhitespace then
      if cur.isEmpty then splitWSAux [] cs
      else cur.reverse :: splitWSAux [] cs
    else splitWSAux (c :: cur) cs

/-- Rust `str::split_whitespace`: maximal runs of non-whitespace characters,
    empty tokens dropped. -/
def splitWS (s : Str) : List Str := splitWSAux [] s

/-- Rust `str::contains(needle)` on the `List Char` model. -/
def hasSub (needle : Str) : Str → Bool
  | [] => needle.isEmpty
  | c :: cs => needle.isPrefixOf (c :: cs) || hasSub needle cs

/-- Rust `str::split("->")` (used on the lsof NAME column for established
    connections): split at each non-overlapping occurrence of `->`. -/
def splitArrow : Str → List Str
  | [] => [[]]
  | '-' :: '>' :: rest => [] :: splitArrow rest
  | c :: rest =>
    match splitArrow rest with
    | [] => [[c]]
    | r :: rs => (c :: r) :: rs

/-- Value of a non-empty all-digit string; `none` otherwise.  This is the
    digit-level core of Rust's integer `str::parse`. -/
def digitsVal (s : Str) : Option Nat :=
  if s.isEmpty then none
  else if s.all (fun c => c.isDigit) then
    some (s.foldl (fun a c => a * 10 + (c.toNat - 48)) 0)
  else none

/-- The optional leading `+` accepted by Rust's unsigned `str::parse`. -/
def stripPlus : Str → Str
  | '+' :: rest => rest
  | s => s

/-- Rust `str::parse::<u16>`: optional leading `+`, decimal digits, value
    within `u16` range. -/
def parseU16 (s : Str) : Option Nat :=
  match digitsVal (stripPlus s) with
  | some v => if v ≤ 65535 then some v else none
  | none => none

/-- Rust `str::parse::<u32>`: optional leading `+`, decimal digits, value
    within `u32` range. -/
def parseU32 (s : Str) : Option Nat :=
  match digitsVal (stripPlus s) with
  | some v => if v ≤ 4294967295 then some v else none
  | none => none

/-- Rust `str::parse::<i32>`: optional sign, decimal digits, value within
    `i32` range. -/
def parseI32 (s : Str) : Option Int :=
  match s with
  | '-' :: rest =>
    match digitsVal rest with
    | some v => if v ≤ 2147483648 then some (-(v : Int)) else none
    | none => none
  | '+' :: rest =>
    match digitsVal rest with
    | some v => if v ≤ 2147483647 then some (v : Int) else none
    | none => none
  | _ =>
    match digitsVal s with
    | some v => if v ≤ 2147483647 then some (v : Int) else none
    | none => none

/-- Index of the last character satisfying `p` (Rust `str::rfind`). -/
def rfindIdx (p : Char → Bool) : Str → Option Nat
  | [] => none
  | c :: cs =>
    match rfindIdx p cs with
    | some i => some (i + 1)
    | none => if p c then some 0 else none

/-- `fn parse_address_port(addr: &str) -> Option<(String, u16)>` from
    `src/port.rs`.  Bracketed IPv6 `[addr]:port` extracts between the
    brackets and parses the remainder after skipping `]:`; otherwise split at
    the last `:` and parse the final segment, truncated at the first `(`.
    `addr.get(bracket_end + 2..)` is Rust's checked slice, hence the explicit
    length guard. -/
def parse_address_port (addr : Str) : Option (Str × Nat) :=
  if addr.head? = some '[' then
    match List.findIdx? (fun c => c = ']') addr with
    | none => none
    | some bracketEnd =>
      let ip := (addr.drop 1).take (bracketEnd - 1)
      if bracketEnd + 2 ≤ addr.length then
        match parseU16 (addr.drop (bracketEnd + 2)) with
        | some port => some (ip, port)
        | none => none
      else none
  else
    match rfindIdx (fun c => c = ':') addr with
    | none => none
    | some lastColon =>
      let ip := addr.take lastColon
      let portStr := addr.drop (lastColon + 1)
      match parseU16 (portStr.takeWhile (fun c => c ≠ '(')) with
      | some port => some (ip, port)
      | none => none

/-- `struct PortInfo` from `src/port.rs`.  `port` is the parsed `u16` (a
    `Nat` kept in range by `parseU16`), `pid` the parsed `i32`. -/
structure PortInfo where
  port : Nat
  pid : Int
  process_name : Str
  protocol : Str
  state : Str
  local_address : Str
  foreign_address : Str
deriving DecidableEq, Repr

def sArrow : Str := "->".data
def sTCP : Str := "TCP".data
def sUDP : Str := "UDP".data
def sUnknownProto : Str := "???".data
def sLISTEN : Str := "LISTEN".data
def sESTABLISHED : Str := "ESTABLISHED".data
def sUnknownState : Str := "UNKNOWN".data

/-- Rust's unchecked `parts[i]`: out-of-bounds access is a panic, modelled as
    `Except.error ()`. -/
def idxE (l : List Str) (i : Nat) : Except Unit Str :=
  match l.get? i with
  | some x => Except.ok x
  | none => Except.error ()

/-- The `let (local_address, port) = ...` block of `parse_lsof_line`: an
    established-connection NAME (containing `->`) is split on `->` and the
    first half parsed; otherwise the whole NAME is parsed. -/
def localPortOf (name : Str) : Option (Str × Nat) :=
  if hasSub sArrow name then
    match (splitArrow name).head? with
    | none => none
    | some loc => parse_address_port loc
  else parse_address_port name

/-- The protocol block of `parse_lsof_line`: guarded by `parts.len() > 4`,
    checks columns 4 and 7 for `TCP` (short-circuit: column 7 is only read if
    column 4 lacks `TCP`), then for `UDP`, else `"???"`. -/
def protocolOf (parts : List Str) : Except Unit Str :=
  if 4 < parts.length then
    match idxE parts 4 with
    | Except.error e => Except.error e
    | Except.ok p4 =>
      if hasSub sTCP p4 then Except.ok sTCP
      else
        match idxE parts 7 with
        | Except.error e => Except.error e
        | Except.ok p7 =>
          if hasSub sTCP p7 then Except.ok sTCP
          else if hasSub sUDP p4 || hasSub sUDP p7 then Except.ok sUDP
          else Except.ok sUnknownProto
  else Except.ok sUnknownProto

/-- The state block of `parse_lsof_line`: `->` in NAME means `ESTABLISHED`;
    else any field containing `LISTEN`, then any containing `ESTABLISHED`;
    else inspect the fallback state field (`parts[name_idx]` when the line is
    longer than `name_idx + 1`, else `parts[len - 2]`, else `""`). -/
def stateOf (parts : List Str) (name : Str) : Except Unit Str :=
  if hasSub sArrow name then Except.ok sESTABLISHED
  else if parts.any (fun p => hasSub sLISTEN p) then Except.ok sLISTEN
  else if parts.any (fun p => hasSub sESTABLISHED p) then Except.ok sESTABLISHED
  else
    match (if parts.length - 1 + 1 < parts.length then idxE parts (parts.length - 1)
           else if 1 < parts.length then idxE parts (parts.length - 2)
           else Except.ok []) with
    | Except.error e => Except.error e
    | Except.ok statePart =>
      Except.ok (if hasSub sLISTEN statePart then sLISTEN else sUnknownState)

/-- The foreign-address block of `parse_lsof_line`:
    `conn_parts.get(1).unwrap_or(&"")` for established connections. -/
def foreignOf (name : Str) : Str :=
  if hasSub sArrow name then ((splitArrow name).get? 1).getD [] else []

/-- `fn parse_lsof_line(line: &str) -> Option<PortInfo>` from `src/port.rs`.
    The outer `Except` layer records whether an unchecked index would have
    panicked; `Except.ok none` is the source's `None` (line skipped). -/
def parse_lsof_line (line : Str) : Except Unit (Option PortInfo) :=
  let parts := splitWS line
  if parts.length < 9 then Except.ok none
  else
    match idxE parts 0 with
    | Except.error e => Except.error e
    | Except.ok process_name =>
      match idxE parts 1 with
      | Except.error e => Except.error e
      | Except.ok pidStr =>
        match parseI32 pidStr with
        | none => Except.ok none
        | some pid =>
          match idxE parts (parts.length - 1) with
          | Except.error e => Except.error e
          | Except.ok name =>
            match localPortOf name with
            | none => Except.ok none
            | some (local_address, port) =>
              match protocolOf parts with
              | Except.error e => Except.error e
              | Except.ok protocol =>
                match stateOf parts name with
                | Except.error e => Except.error e
                | Except.ok state =>
                  Except.ok (some { port := port, pid := pid,
                                    process_name := process_name,
                                    protocol := protocol, state := state,
                                    local_address := local_address,
                                    foreign_address := foreignOf name })

/-- `parse_lsof_line` as the source's `Option` (the error case never occurs;
    see the totality theorem). -/
def parseLine (line : Str) : Option PortInfo :=
  match parse_lsof_line line with
  | Except.ok r => r
  | Except.error _ => none

/-- The duplicate test of `get_listening_ports`:
    `p.port == port_info.port && p.pid == port_info.pid
     && p.state == port_info.state`. -/
def keyMatch (pi : PortInfo) (p : PortInfo) : Bool :=
  p.port == pi.port && p.pid == pi.pid && p.state == pi.state

/-- The push of the `get_listening_ports` loop: append unless the
    `(port, pid, state)` triple already occurs (first occurrence wins). -/
def dedupStep (acc : List PortInfo) (pi : PortInfo) : List PortInfo :=
  if acc.any (keyMatch pi) then acc else acc ++ [pi]

/-- One iteration of the `for line in stdout.lines().skip(1)` loop of
    `get_listening_ports`: parse, then push unless the `(port, pid, state)`
    triple already occurs. -/
def collectStep (acc : List PortInfo) (line : Str) : List PortInfo :=
  match parseLine line with
  | none => acc
  | some pi => dedupStep acc pi

/-- The comparison of `ports.sort_by(|a, b| a.port.cmp(&b.port))`. -/
def portLE (a b : PortInfo) : Prop := a.port ≤ b.port

instance : DecidableRel portLE :=
  fun a b => inferInstanceAs (Decidable (a.port ≤ b.port))

instance : IsTotal PortInfo portLE := ⟨fun a b => Nat.le_total a.port b.port⟩

instance : IsTrans PortInfo portLE := ⟨fun _ _ _ => Nat.le_trans⟩

/-- `fn get_listening_ports() -> Result<Vec<PortInfo>>` from `src/port.rs`,
    as a function of the lsof invocation's outcome: `Except.error` models a
    failure to spawn lsof (propagated by `?`); `Except.ok (status, lines)`
    models a completed run with exit success flag `status` and output
    `lines` (header included — the loop skips it).  Rust's `sort_by` is a
    stable sort; it is modelled by `List.insertionSort`, which is also
    stable, and a stable sort's output is uniquely determined by its input
    and key. -/
def get_listening_ports (toolResult : Except Unit (Bool × List Str)) :
    Except Unit (List PortInfo) :=
  match toolResult with
  | Except.error e => Except.error e
  | Except.ok (status, outLines) =>
    if status then
      Except.ok (((outLines.drop 1).foldl collectStep []).insertionSort portLE)
    else Except.ok []

/-- `struct TunnelConfig` from `src/tunnel.rs` (`process` is the transient
    recorded pid, `#[serde(skip)]`). -/
structure TunnelConfig where
  name : String
  ssh_host : String
  local_port : Nat
  remote_target : String
  process : Option Nat
deriving DecidableEq, Repr

/-- Outcomes of the external process invocations made by `src/tunnel.rs`:
    `lsofPort p` is the result of `lsof -iTCP -P -n -i:p` (`none` = spawn
    failure, `some lines` = ran, whatever its exit status — `find_ssh_pid`
    never checks it); `killOk pid` is the result of `kill <pid>` (`none` =
    spawn failure propagated by `?`, `some b` = ran with success flag `b`,
    which the source ignores). -/
structure OsEnv where
  lsofPort : Nat → Option (List Str)
  killOk : Nat → Option Bool

/-- The scan loop of `find_ssh_pid`: first output row (header skipped) whose
    first field is `ssh` and whose second field parses as `u32`. -/
def scanSsh : List Str → Option Nat
  | [] => none
  | line :: rest =>
    let parts := splitWS line
    if parts.length ≥ 2 && (parts.getD 0 [] == "ssh".data) then
      match parseU32 (parts.getD 1 []) with
      | some pid => some pid
      | none => scanSsh rest
    else scanSsh rest

/-- `fn find_ssh_pid(&self) -> Option<u32>` from `src/tunnel.rs`. -/
def TunnelConfig.find_ssh_pid (env : OsEnv) (t : TunnelConfig) : Option Nat :=
  match env.lsofPort t.local_port with
  | none => none
  | some outLines => scanSsh (outLines.drop 1)

/-- `fn is_connected(&self) -> bool` from `src/tunnel.rs`. -/
def TunnelConfig.is_connected (env : OsEnv) (t : TunnelConfig) : Bool :=
  (TunnelConfig.find_ssh_pid env t).isSome

/-- `fn disconnect(&mut self) -> Result<()>` from `src/tunnel.rs`, returning
    (result, final state of `self`, pids to which a `kill` was issued).  With
    a recorded pid the pid is killed and cleared (`?` propagates a `kill`
    spawn failure before the clear); otherwise the pid is re-derived via
    `find_ssh_pid` and killed without touching the (already `None`) record;
    with no pid found anywhere the call is a no-op returning `Ok(())`. -/
def TunnelConfig.disconnect (env : OsEnv) (t : TunnelConfig) :
    Except Unit Unit × TunnelConfig × List Nat :=
  match t.process with
  | some pid =>
    match env.killOk pid with
    | none => (Except.error (), t, [pid])
    | some _ => (Except.ok (), { t with process := none }, [pid])
  | none =>
    match TunnelConfig.find_ssh_pid env t with
    | some pid =>
      match env.killOk pid with
      | none => (Except.error (), t, [pid])
      | some _ => (Except.ok (), t, [pid])
    | none => (Except.ok (), t, [])

/-- `fn add(&mut self, tunnel: TunnelConfig)` from `src/tunnel.rs`, on the
    `tunnels` vector: retain entries with a different name, then push. -/
def TunnelManager.add (ts : List TunnelConfig) (t : TunnelConfig) :
    List TunnelConfig :=
  (ts.filter (fun x => x.name != t.name)) ++ [t]

/-- `fn remove(&mut self, name: &str)` from `src/tunnel.rs`, on the `tunnels`
    vector: best-effort `disconnect` on the first entry with the given name
    (its result discarded by `let _ =`), then retain entries with a different
    name.  Returns (new vector, pids to which a `kill` was issued). -/
def TunnelManager.remove (env : OsEnv) (ts : List TunnelConfig)
    (name : String) : List TunnelConfig × List Nat :=
  let killed := match ts.find? (fun t => t.name == name) with
    | some t => (TunnelConfig.disconnect env t).2.2
    | none => []
  (ts.filter (fun t => t.name != name), killed)

/-- The dedup key of `get_listening_ports`: the `(port, pid, state)` triple. -/
def keyOf (p : PortInfo) : Nat × Int × Str := (p.port, p.pid, p.state)

/-! Concrete fixtures used by the witness theorems. -/

/-- An lsof row for an established ssh connection. -/
def estLine : Str := "ssh 4242 u 7u IPv4 d 0 TCP 192.168.1.5:51000->10.0.0.1:443".data

/-- The record `parse_lsof_line` produces for `estLine`. -/
def estRec : PortInfo :=
  { port := 51000, pid := 4242, process_name := "ssh".data,
    protocol := "TCP".data, state := "ESTABLISHED".data,
    local_address := "192.168.1.5".data, foreign_address := "10.0.0.1:443".data }

/-- An lsof row whose column 4 contains `UDP` while column 7 contains `TCP`. -/
def mixedLine : Str := "cmd 1 u x UDP d s TCP *:53".data

/-- The record `parse_lsof_line` produces for `mixedLine`: protocol `TCP`. -/
def mixedRec : PortInfo :=
  { port := 53, pid := 1, process_name := "cmd".data,
    protocol := "TCP".data, state := "UNKNOWN".data,
    local_address := "*".data, foreign_address := [] }

/-- A small lsof transcript: header, a port-9000 row, a port-80 row, and an
    exact duplicate of the port-80 `(port, pid, state)` triple on another fd. -/
def demoLines : List Str :=
  ["COMMAND PID USER FD TYPE DEVICE SIZE NODE NAME".data,
   "b 20 u 6u IPv4 d 0 TCP *:9000(LISTEN)".data,
   "a 10 u 6u IPv4 d 0 TCP *:80(LISTEN)".data,
   "a 10 u 7u IPv4 d 0 TCP *:80(LISTEN)".data]

/-- The port-80 record of `demoLines`. -/
def rec80 : PortInfo :=
  { port := 80, pid := 10, process_name := "a".data, protocol := "TCP".data,
    state := "LISTEN".data, local_address := "*".data, foreign_address := [] }

/-- The port-9000 record of `demoLines`. -/
def rec9000 : PortInfo :=
  { port := 9000, pid := 20, process_name := "b".data, protocol := "TCP".data,
    state := "LISTEN".data, local_address := "*".data, foreign_address := [] }

/-- What `get_listening_ports` returns on `demoLines`: dedup dropped the
    duplicate port-80 row, and the result is sorted by port. -/
def demoPorts : List PortInfo := [rec80, rec9000]

/-- An environment in which every external invocation fails to spawn. -/
def envDown : OsEnv := { lsofPort := fun _ => none, killOk := fun _ => none }

/-- An environment in which `kill` spawns but exits with failure (e.g. the
    target process is already dead) and lsof finds nothing. -/
def envDead : OsEnv := { lsofPort := fun _ => none, killOk := fun _ => some false }

/-- A tunnel named `x` with a recorded ssh pid. -/
def tunX : TunnelConfig :=
  { name := "x", ssh_host := "user@hostA", local_port := 8080,
    remote_target := "db:5432", process := some 777 }

/-- A second definition also named `x`, with different field values. -/
def tunX2 : TunnelConfig :=
  { name := "x", ssh_host := "user@hostB", local_port := 9090,
    remote_target := "web:80", process := none }

/-- A tunnel named `y`, disconnected. -/
def tunY : TunnelConfig :=
  { name := "y", ssh_host := "user@hostC", local_port := 7000,
    remote_target := "cache:6379", process := none }

/-! ## Theorems -/

/-! ### Helper lemmas about the string primitives -/

theorem parseU16_le {s : Str} {v : Nat} (h : parseU16 s = some v) : v ≤ 65535 := by
  unfold parseU16 at h
  split at h
  · split at h
    · cases h; assumption
    · exact Option.noConfusion h
  · exact Option.noConfusion h

theorem findIdx?_append_first {p : Char → Bool} (pre : Str) (x : Char) (rest : Str)
    (hpre : ∀ c ∈ pre, p c = false) (hx : p x = true) :
    ∀ i, List.findIdx? p (pre ++ x :: rest) i = some (i + pre.length) := by
  induction pre with
  | nil => intro i; simp [List.findIdx?_cons, hx]
  | cons c tl ih =>
    intro i
    rw [List.cons_append, List.findIdx?_cons, hpre c (by simp)]
    simp only [Bool.false_eq_true, if_false]
    rw [ih (fun d hd => hpre d (by simp [hd])) (i + 1)]
    congr 1
    simp only [List.length_cons]
    omega

theorem rfindIdx_eq_none {p : Char → Bool} {l : Str} (h : ∀ c ∈ l, p c = false) :
    rfindIdx p l = none := by
  induction l with
  | nil => rfl
  | cons c tl ih =>
    unfold rfindIdx
    rw [ih (fun d hd => h d (by simp [hd]))]
    simp [h c (by simp)]

theorem rfindIdx_append {p : Char → Bool} (a : Str) (x : Char) (rest : Str)
    (hx : p x = true) (hrest : ∀ c ∈ rest, p c = false) :
    rfindIdx p (a ++ x :: rest) = some a.length := by
  induction a with
  | nil =>
    rw [List.nil_append]
    unfold rfindIdx
    rw [rfindIdx_eq_none hrest]
    simp [hx]
  | cons c tl ih =>
    rw [List.cons_append]
    unfold rfindIdx
    rw [ih]
    simp

theorem idxE_eq_ok_iff {l : List Str} {i : Nat} {x : Str} :
    idxE l i = Except.ok x ↔ l.get? i = some x := by
  unfold idxE
  cases h : l.get? i <;> simp

theorem idxE_ok_of_lt {l : List Str} {i : Nat} (h : i < l.length) :
    idxE l i = Except.ok (l.getD i []) := by
  rw [idxE_eq_ok_iff, List.get?_eq_getElem?, List.getElem?_eq_getElem h]
  simp [List.getD_eq_getElem?_getD, List.getElem?_eq_getElem h]

theorem idxE_not_error {l : List Str} {i : Nat} (h : i < l.length) (e : Unit) :
    ¬ idxE l i = Except.error e := by
  rw [idxE_ok_of_lt h]
  exact fun hc => Except.noConfusion hc

theorem eq_getD_of_idxE_ok {l : List Str} {i : Nat} {x : Str}
    (hx : idxE l i = Except.ok x) : x = l.getD i [] := by
  have h := idxE_eq_ok_iff.mp hx
  rw [List.getD_eq_getElem?_getD, ← List.get?_eq_getElem?, h]
  rfl

theorem parse_address_port_le {addr la : Str} {p : Nat}
    (h : parse_address_port addr = some (la, p)) : p ≤ 65535 := by
  unfold parse_address_port at h
  split at h
  · split at h
    · exact Option.noConfusion h
    · dsimp only at h
      split at h
      · split at h
        · cases h; exact parseU16_le (by assumption)
        · exact Option.noConfusion h
      · exact Option.noConfusion h
  · split at h
    · exact Option.noConfusion h
    · dsimp only at h
      split at h
      · cases h; exact parseU16_le (by assumption)
      · exact Option.noConfusion h

theorem localPortOf_le {name la : Str} {p : Nat}
    (h : localPortOf name = some (la, p)) : p ≤ 65535 := by
  unfold localPortOf at h
  split at h
  · split at h
    · exact Option.noConfusion h
    · exact parse_address_port_le h
  · exact parse_address_port_le h

theorem splitArrow_ne_nil (s : Str) : splitArrow s ≠ [] := by
  unfold splitArrow
  split
  · simp
  · simp
  · split <;> simp

theorem protocolOf_spec (parts : List Str) (h : 7 < parts.length) :
    protocolOf parts = Except.ok (
      if hasSub sTCP (parts.getD 4 []) || hasSub sTCP (parts.getD 7 []) then sTCP
      else if hasSub sUDP (parts.getD 4 []) || hasSub sUDP (parts.getD 7 []) then sUDP
      else sUnknownProto) := by
  unfold protocolOf
  rw [if_pos (show 4 < parts.length by omega)]
  split
  · rename_i e heq
    exact absurd heq (idxE_not_error (by omega) e)
  · rename_i p4 heq4
    obtain rfl := eq_getD_of_idxE_ok heq4
    by_cases h4 : hasSub sTCP (parts.getD 4 []) = true
    · rw [if_pos h4, if_pos (show (hasSub sTCP (parts.getD 4 []) ||
        hasSub sTCP (parts.getD 7 [])) = true by
          rw [Bool.or_eq_true]; exact Or.inl h4)]
    · rw [if_neg h4]
      split
      · rename_i e heq
        exact absurd heq (idxE_not_error h e)
      · rename_i p7 heq7
        obtain rfl := eq_getD_of_idxE_ok heq7
        by_cases h7 : hasSub sTCP (parts.getD 7 []) = true
        · rw [if_pos h7, if_pos (show (hasSub sTCP (parts.getD 4 []) ||
            hasSub sTCP (parts.getD 7 [])) = true by
              rw [Bool.or_eq_true]; exact Or.inr h7)]
        · rw [if_neg h7, if_neg (show ¬(hasSub sTCP (parts.getD 4 []) ||
            hasSub sTCP (parts.getD 7 [])) = true by
              rw [Bool.or_eq_true]
              rintro (hc | hc)
              · exact h4 hc
              · exact h7 hc)]
          by_cases hu : (hasSub sUDP (parts.getD 4 []) ||
              hasSub sUDP (parts.getD 7 [])) = true
          · rw [if_pos hu, if_pos hu]
          · rw [if_neg hu, if_neg hu]

theorem stateOf_isOk (parts : List Str) (name : Str) :
    ∃ s, stateOf parts name = Except.ok s := by
  unfold stateOf
  split
  · exact ⟨_, rfl⟩
  · split
    · exact ⟨_, rfl⟩
    · split
      · exact ⟨_, rfl⟩
      · rw [if_neg (show ¬(parts.length - 1 + 1 < parts.length) by omega)]
        by_cases h2 : 1 < parts.length
        · rw [if_pos h2,
              idxE_ok_of_lt (show parts.length - 2 < parts.length by omega)]
          exact ⟨_, rfl⟩
        · rw [if_neg h2]
          exact ⟨_, rfl⟩

theorem stateOf_arrow (parts : List Str) (name : Str)
    (h : hasSub sArrow name = true) :
    stateOf parts name = Except.ok sESTABLISHED := by
  unfold stateOf
  rw [if_pos h]

/-- Field-by-field description of a successful `parse_lsof_line`. -/
theorem parse_lsof_line_fields {line : Str} {r : PortInfo}
    (h : parse_lsof_line line = Except.ok (some r)) :
    9 ≤ (splitWS line).length ∧
    (splitWS line).getD 0 [] = r.process_name ∧
    parseI32 ((splitWS line).getD 1 []) = some r.pid ∧
    localPortOf ((splitWS line).getD ((splitWS line).length - 1) []) =
      some (r.local_address, r.port) ∧
    protocolOf (splitWS line) = Except.ok r.protocol ∧
    stateOf (splitWS line) ((splitWS line).getD ((splitWS line).length - 1) []) =
      Except.ok r.state ∧
    r.foreign_address = foreignOf ((splitWS line).getD ((splitWS line).length - 1) []) := by
  unfold parse_lsof_line at h
  by_cases h9 : (splitWS line).length < 9
  · rw [if_pos h9] at h; simp at h
  · rw [if_neg h9] at h
    push_neg at h9
    split at h
    · exact Except.noConfusion h
    · rename_i p0 heq0
      split at h
      · exact Except.noConfusion h
      · rename_i p1 heq1
        split at h
        · simp at h
        · rename_i pid hpid
          split at h
          · exact Except.noConfusion h
          · rename_i nm heqn
            split at h
            · simp at h
            · rename_i la p hlp
              split at h
              · exact Except.noConfusion h
              · rename_i proto hproto
                split at h
                · exact Except.noConfusion h
                · rename_i st hst
                  have hr := Option.some.inj (Except.ok.inj h)
                  subst hr
                  obtain rfl := eq_getD_of_idxE_ok heq0
                  obtain rfl := eq_getD_of_idxE_ok heq1
                  obtain rfl := eq_getD_of_idxE_ok heqn
                  exact ⟨h9, rfl, hpid, hlp, hproto, hst, rfl⟩

theorem parse_lsof_line_isOk (line : Str) :
    (parse_lsof_line line).isOk = true := by
  unfold parse_lsof_line
  by_cases h9 : (splitWS line).length < 9
  · rw [if_pos h9]; rfl
  · rw [if_neg h9]
    push_neg at h9
    split
    · rename_i e heq
      exact absurd heq (idxE_not_error (by omega) e)
    · rename_i p0 heq0
      split
      · rename_i e heq
        exact absurd heq (idxE_not_error (by omega) e)
      · rename_i p1 heq1
        split
        · rfl
        · rename_i pid hpid
          split
          · rename_i e heq
            exact absurd heq (idxE_not_error (by omega) e)
          · rename_i nm heqn
            split
            · rfl
            · rename_i la p hlp
              split
              · rename_i e hproto
                rw [protocolOf_spec _ (by omega)] at hproto
                exact Except.noConfusion hproto
              · rename_i proto hproto
                split
                · rename_i e hstate
                  obtain ⟨st, hst⟩ := stateOf_isOk (splitWS line) nm
                  rw [hst] at hstate
                  exact Except.noConfusion hstate
                · rfl

/-- C2: the per-line parser is total — for every input line it completes
    without any out-of-bounds access (the panic-modelling `Except` layer is
    always `ok`), and whenever it returns a record, the record's port is in
    the `u16` range `[0, 65535]` (it is a `Nat`, so nonnegative). -/
theorem parse_lsof_line_total (line : Str) :
    (parse_lsof_line line).isOk = true ∧
    (∀ r, parse_lsof_line line = Except.ok (some r) → r.port ≤ 65535) :=
  ⟨parse_lsof_line_isOk line,
   fun _ h => localPortOf_le (parse_lsof_line_fields h).2.2.2.1⟩

/-- Witness for C2 at a concrete well-formed line. -/
theorem parse_lsof_line_total_witness :
    (parse_lsof_line estLine).isOk = true ∧ estRec.port ≤ 65535 :=
  ⟨(parse_lsof_line_total estLine).1,
   (parse_lsof_line_total estLine).2 estRec (by rfl)⟩

/-- C3: a parsed line whose last field contains `->` is an established
    connection: the last field is split on `->`, the first half is what
    `local_address`/`port` were parsed from, the second half is stored
    verbatim as `foreign_address`, and the state is `ESTABLISHED`;
    concretely, the descriptor `192.168.1.5:51000->10.0.0.1:443` yields
    local address `192.168.1.5`, port `51000`, foreign address
    `10.0.0.1:443` and state `ESTABLISHED` (the fields of `estRec`). -/
theorem parse_lsof_line_established :
    (∀ (line : Str) (r : PortInfo),
      hasSub sArrow ((splitWS line).getD ((splitWS line).length - 1) []) = true →
      parse_lsof_line line = Except.ok (some r) →
      r.state = sESTABLISHED ∧
      r.foreign_address =
        ((splitArrow ((splitWS line).getD ((splitWS line).length - 1) [])).get? 1).getD [] ∧
      parse_address_port
          ((splitArrow ((splitWS line).getD ((splitWS line).length - 1) [])).headD []) =
        some (r.local_address, r.port)) ∧
    parse_lsof_line estLine = Except.ok (some estRec) := by
  constructor
  · intro line r harrow h
    obtain ⟨h9, hpn, hpid, hlp, hproto, hstate, hforeign⟩ := parse_lsof_line_fields h
    refine ⟨?_, ?_, ?_⟩
    · have harr := stateOf_arrow (splitWS line)
        ((splitWS line).getD ((splitWS line).length - 1) []) harrow
      rw [harr] at hstate
      exact (Except.ok.inj hstate).symm
    · rw [hforeign]
      unfold foreignOf
      rw [if_pos harrow]
    · unfold localPortOf at hlp
      rw [if_pos harrow] at hlp
      cases hsp : splitArrow ((splitWS line).getD ((splitWS line).length - 1) []) with
      | nil => exact absurd hsp (splitArrow_ne_nil _)
      | cons a as =>
        rw [hsp] at hlp
        simpa using hlp
  · rfl

/-- Witness for C3's general half, applied at `estLine`. -/
theorem parse_lsof_line_established_witness :
    estRec.state = sESTABLISHED ∧
    estRec.foreign_address =
      ((splitArrow ((splitWS estLine).getD ((splitWS estLine).length - 1) [])).get? 1).getD [] ∧
    parse_address_port
        ((splitArrow ((splitWS estLine).getD ((splitWS estLine).length - 1) [])).headD []) =
      some (estRec.local_address, estRec.port) :=
  parse_lsof_line_established.1 estLine estRec (by rfl) (by rfl)

/-- C10: protocol inference gives `TCP` priority over `UDP` across both
    candidate columns: whenever column 4 or column 7 contains `TCP` the
    protocol is `TCP` (in particular when column 4 says `UDP` and column 7
    says `TCP`, as in `mixedLine`), and when neither column contains `TCP`
    nor `UDP` the protocol is the unknown marker `???`. -/
theorem parse_lsof_line_protocol_priority :
    (∀ (line : Str) (r : PortInfo),
      parse_lsof_line line = Except.ok (some r) →
      ((hasSub sTCP ((splitWS line).getD 4 []) ||
        hasSub sTCP ((splitWS line).getD 7 [])) = true → r.protocol = sTCP) ∧
      (hasSub sTCP ((splitWS line).getD 4 []) = false →
       hasSub sTCP ((splitWS line).getD 7 []) = false →
       hasSub sUDP ((splitWS line).getD 4 []) = false →
       hasSub sUDP ((splitWS line).getD 7 []) = false →
       r.protocol = sUnknownProto)) ∧
    parse_lsof_line mixedLine = Except.ok (some mixedRec) := by
  constructor
  · intro line r h
    obtain ⟨h9, _, _, _, hproto, _, _⟩ := parse_lsof_line_fields h
    rw [protocolOf_spec _ (by omega)] at hproto
    have hp := Except.ok.inj hproto
    constructor
    · intro htcp
      rw [← hp, if_pos htcp]
    · intro f1 f2 f3 f4
      rw [← hp,
          if_neg (show ¬(hasSub sTCP ((splitWS line).getD 4 []) ||
            hasSub sTCP ((splitWS line).getD 7 [])) = true by
              simp only [f1, f2, Bool.or_self]
              exact Bool.false_ne_true),
          if_neg (show ¬(hasSub sUDP ((splitWS line).getD 4 []) ||
            hasSub sUDP ((splitWS line).getD 7 [])) = true by
              simp only [f3, f4, Bool.or_self]
              exact Bool.false_ne_true)]
  · rfl

/-- Witness for C10's general half: `mixedLine` has `UDP` in column 4 and
    `TCP` in column 7, and is classified as `TCP`. -/
theorem parse_lsof_line_protocol_priority_witness :
    mixedRec.protocol = sTCP :=
  (parse_lsof_line_protocol_priority.1 mixedLine mixedRec (by rfl)).1 (by rfl)

/-- C4: `parse_address_port` handles the two address grammars.  Concretely,
    `"[::1]:8080"` yields address `"::1"` and port `8080`, `"*:9000"` yields
    address `"*"` and port `9000`, and `"127.0.0.1:443(LISTEN)"` yields port
    `443`.  Generally, a bracketed descriptor `[ip]:rest` yields the text
    between the brackets and whatever `rest` parses to (`none` on parse
    failure), and an unbracketed descriptor splits at its last colon, with
    the port segment truncated at `(` before the integer parse. -/
theorem parse_address_port_grammars :
    (parse_address_port "[::1]:8080".data = some ("::1".data, 8080)) ∧
    (parse_address_port "*:9000".data = some ("*".data, 9000)) ∧
    (parse_address_port "127.0.0.1:443(LISTEN)".data = some ("127.0.0.1".data, 443)) ∧
    (∀ ip rest : Str, ']' ∉ ip →
      parse_address_port ('[' :: ip ++ ']' :: ':' :: rest) =
        (parseU16 rest).map (fun p => (ip, p))) ∧
    (∀ a p : Str, (a ++ ':' :: p).head? ≠ some '[' → ':' ∉ p →
      parse_address_port (a ++ ':' :: p) =
        (parseU16 (p.takeWhile (fun c => c ≠ '('))).map (fun n => (a, n))) := by
  refine ⟨by decide, by decide, by decide, ?_, ?_⟩
  · intro ip rest hnotin
    unfold parse_address_port
    rw [if_pos (show ('[' :: ip ++ ']' :: ':' :: rest).head? = some '[' from rfl)]
    have hfind : List.findIdx? (fun c => c = ']') ('[' :: ip ++ ']' :: ':' :: rest) 0 =
        some (ip.length + 1) := by
      have hpre : ∀ c ∈ '[' :: ip, (fun c => decide (c = ']')) c = false := by
        intro c hc
        rcases List.mem_cons.mp hc with h | h
        · subst h; decide
        · simp only [decide_eq_false_iff_not]
          intro he; exact hnotin (he ▸ h)
      have := findIdx?_append_first ('[' :: ip) ']' (':' :: rest) hpre (by decide) 0
      simpa [Nat.add_comm] using this
    rw [hfind]
    dsimp only
    have hlen : ip.length + 1 + 2 ≤ ('[' :: ip ++ ']' :: ':' :: rest).length := by
      simp only [List.cons_append, List.length_cons, List.length_append]
      omega
    rw [if_pos hlen]
    have hdrop1 : ('[' :: ip ++ ']' :: ':' :: rest).drop 1 = ip ++ ']' :: ':' :: rest := rfl
    have htake : ((('[' :: ip ++ ']' :: ':' :: rest).drop 1).take (ip.length + 1 - 1)) = ip := by
      rw [hdrop1]
      simp
    have hdrop : ('[' :: ip ++ ']' :: ':' :: rest).drop (ip.length + 1 + 2) = rest := by
      have he : '[' :: ip ++ ']' :: ':' :: rest = ('[' :: ip ++ [']', ':']) ++ rest := by
        simp
      have hl : ip.length + 1 + 2 = ('[' :: ip ++ [']', ':']).length := by
        simp only [List.cons_append, List.length_cons, List.length_append,
          List.length_nil]
        try omega
      rw [he, hl]
      exact List.drop_left _ _
    rw [htake, hdrop]
    cases hp : parseU16 rest <;> simp [hp]
  · intro a p hhead hnotin
    unfold parse_address_port
    rw [if_neg hhead]
    have hfind : rfindIdx (fun c => c = ':') (a ++ ':' :: p) = some a.length := by
      refine rfindIdx_append a ':' p (by decide) ?_
      intro c hc
      simp only [decide_eq_false_iff_not]
      intro he; exact hnotin (he ▸ hc)
    rw [hfind]
    dsimp only
    have htake : (a ++ ':' :: p).take a.length = a := List.take_left a (':' :: p)
    have hdrop : (a ++ ':' :: p).drop (a.length + 1) = p := by
      simp
    rw [htake, hdrop]
    cases hp : parseU16 (p.takeWhile (fun c => c ≠ '(')) <;> simp [hp]

/-- Witness for C4's general conjuncts at concrete descriptors. -/
theorem parse_address_port_grammars_witness :
    (parse_address_port ('[' :: "::1".data ++ ']' :: ':' :: "8080".data) =
      (parseU16 "8080".data).map (fun p => ("::1".data, p))) ∧
    (parse_address_port ("10.0.0.1".data ++ ':' :: "443(LISTEN)".data) =
      (parseU16 ("443(LISTEN)".data.takeWhile (fun c => c ≠ '('))).map
        (fun n => ("10.0.0.1".data, n))) :=
  ⟨parse_address_port_grammars.2.2.2.1 "::1".data "8080".data (by decide),
   parse_address_port_grammars.2.2.2.2 "10.0.0.1".data "443(LISTEN)".data
     (by decide) (by decide)⟩

theorem keyMatch_iff {pi p : PortInfo} :
    keyMatch pi p = true ↔ keyOf p = keyOf pi := by
  simp only [keyMatch, keyOf, Bool.and_eq_true, beq_iff_eq, Prod.mk.injEq]
  tauto

theorem keyOf_eq_iff {a b : PortInfo} :
    keyOf a = keyOf b ↔ (a.port = b.port ∧ a.pid = b.pid ∧ a.state = b.state) := by
  simp [keyOf, Prod.ext_iff]

theorem collect_eq (lines : List Str) :
    ∀ acc, lines.foldl collectStep acc =
      (lines.filterMap parseLine).foldl dedupStep acc := by
  induction lines with
  | nil => intro acc; rfl
  | cons l ls ih =>
    intro acc
    rw [List.foldl_cons, List.filterMap_cons]
    cases hp : parseLine l <;> simp [collectStep, hp, ih]

/-- The loop invariant of the dedup fold of `get_listening_ports`: folding
    the parsed records `P` into an accumulator `acc` that faithfully
    deduplicates the already-processed records `done` yields a list that
    faithfully deduplicates `done ++ P` — pairwise-distinct keys, a sublist
    of the input (so insertion order is preserved), first occurrence of each
    key wins, and no key is lost. -/
theorem dedup_foldl_props (P : List PortInfo) :
    ∀ (done acc : List PortInfo),
      acc.Pairwise (fun a b => keyOf a ≠ keyOf b) →
      acc.Sublist done →
      (∀ r ∈ acc, done.find? (keyMatch r) = some r) →
      (∀ q ∈ done, ∃ r ∈ acc, keyOf r = keyOf q) →
      (P.foldl dedupStep acc).Pairwise (fun a b => keyOf a ≠ keyOf b) ∧
      (P.foldl dedupStep acc).Sublist (done ++ P) ∧
      (∀ r ∈ P.foldl dedupStep acc, (done ++ P).find? (keyMatch r) = some r) ∧
      (∀ q ∈ done ++ P, ∃ r ∈ P.foldl dedupStep acc, keyOf r = keyOf q) := by
  induction P with
  | nil =>
    intro done acc h1 h2 h3 h4
    simpa using ⟨h1, h2, h3, h4⟩
  | cons pi P ih =>
    intro done acc h1 h2 h3 h4
    rw [List.foldl_cons,
        show done ++ pi :: P = (done ++ [pi]) ++ P by simp]
    by_cases hany : acc.any (keyMatch pi) = true
    · rw [show dedupStep acc pi = acc by simp [dedupStep, hany]]
      apply ih (done ++ [pi]) acc h1
      · exact h2.trans (List.sublist_append_left done [pi])
      · intro r hr
        rw [List.find?_append, h3 r hr]
        rfl
      · intro q hq
        rcases List.mem_append.mp hq with hq | hq
        · exact h4 q hq
        · have hq' : q = pi := by simpa using hq
          subst hq'
          obtain ⟨p, hp, hmatch⟩ := List.any_eq_true.mp hany
          exact ⟨p, hp, keyMatch_iff.mp hmatch⟩
    · have hany' : acc.any (keyMatch pi) = false := Bool.eq_false_iff.mpr hany
      rw [show dedupStep acc pi = acc ++ [pi] by simp [dedupStep, hany]]
      have hnotin : ∀ p ∈ acc, keyOf p ≠ keyOf pi := by
        intro p hp hk
        exact List.any_eq_false.mp hany' p hp (keyMatch_iff.mpr hk)
      have hnotdone : done.find? (keyMatch pi) = none := by
        apply List.find?_eq_none.mpr
        intro x hx hmx
        obtain ⟨rr, hrr, hkr⟩ := h4 x hx
        exact hnotin rr hrr (hkr.trans (keyMatch_iff.mp hmx))
      apply ih (done ++ [pi]) (acc ++ [pi])
      · rw [List.pairwise_append]
        refine ⟨h1, List.pairwise_singleton _ _, fun a ha b hb => ?_⟩
        have hb' : b = pi := by simpa using hb
        subst hb'
        exact hnotin a ha
      · exact h2.append (List.Sublist.refl [pi])
      · intro r hr
        rcases List.mem_append.mp hr with hr | hr
        · rw [List.find?_append, h3 r hr]
          rfl
        · have hr' : r = pi := by simpa using hr
          subst hr'
          rw [List.find?_append, hnotdone]
          have hself : keyMatch r r = true := keyMatch_iff.mpr rfl
          simp [List.find?_cons, hself]
      · intro q hq
        rcases List.mem_append.mp hq with hq | hq
        · obtain ⟨rr, hrr, hkr⟩ := h4 q hq
          exact ⟨rr, List.mem_append_left _ hrr, hkr⟩
        · have hq' : q = pi := by simpa using hq
          subst hq'
          exact ⟨q, List.mem_append_right _ (by simp), rfl⟩

/-- C1: on any lsof transcript (run successful, header dropped), the record
    list returned by `get_listening_ports` has pairwise-distinct
    `(port, pid, state)` triples, is sorted by port, consists exactly of the
    first parsed occurrence of each key (no key lost), and within any fixed
    port value keeps the records in insertion order — the order of the
    deduplicated parse sequence (stability of the sort). -/
theorem discovery_dedup_sorted (outLines : List Str) (res : List PortInfo)
    (h : get_listening_ports (Except.ok (true, outLines)) = Except.ok res) :
    (res.Pairwise fun a b =>
      ¬(a.port = b.port ∧ a.pid = b.pid ∧ a.state = b.state)) ∧
    (res.Pairwise fun a b => a.port ≤ b.port) ∧
    (∀ r ∈ res,
      ((outLines.drop 1).filterMap parseLine).find? (keyMatch r) = some r) ∧
    (∀ q ∈ (outLines.drop 1).filterMap parseLine, ∃ r ∈ res,
      r.port = q.port ∧ r.pid = q.pid ∧ r.state = q.state) ∧
    (∀ p : Nat, res.filter (fun x => x.port == p) =
      (((outLines.drop 1).filterMap parseLine).foldl dedupStep []).filter
        (fun x => x.port == p)) := by
  have hres : res =
      (((outLines.drop 1).filterMap parseLine).foldl dedupStep
        []).insertionSort portLE := by
    have hg : get_listening_ports (Except.ok (true, outLines)) =
        Except.ok (((outLines.drop 1).foldl collectStep []).insertionSort portLE) := rfl
    rw [hg] at h
    rw [← Except.ok.inj h, collect_eq]
  obtain ⟨hp1, hp2, hp3, hp4⟩ :=
    dedup_foldl_props ((outLines.drop 1).filterMap parseLine) [] []
      (by simp) (by simp) (by simp) (by simp)
  simp only [List.nil_append] at hp2 hp3 hp4
  have hperm : res.Perm
      (((outLines.drop 1).filterMap parseLine).foldl dedupStep []) := by
    rw [hres]
    exact List.perm_insertionSort portLE _
  refine ⟨?_, ?_, ?_, ?_, ?_⟩
  · have hsym : ∀ {x y : PortInfo}, keyOf x ≠ keyOf y → keyOf y ≠ keyOf x :=
      fun hne he => hne he.symm
    refine ((List.Perm.pairwise_iff hsym hperm).mpr hp1).imp ?_
    intro a b hne hcontra
    exact hne (keyOf_eq_iff.mpr hcontra)
  · rw [hres]
    exact List.sorted_insertionSort portLE _
  · intro r hr
    exact hp3 r (hperm.mem_iff.mp hr)
  · intro q hq
    obtain ⟨rr, hrr, hkr⟩ := hp4 q hq
    exact ⟨rr, hperm.mem_iff.mpr hrr, keyOf_eq_iff.mp hkr⟩
  · intro p
    set D := ((outLines.drop 1).filterMap parseLine).foldl dedupStep [] with hD
    have hpw : (D.filter (fun x => x.port == p)).Pairwise portLE := by
      apply List.pairwise_of_forall_mem_list
      intro a ha b hb
      have hap : a.port = p := by simpa using (List.mem_filter.mp ha).2
      have hbp : b.port = p := by simpa using (List.mem_filter.mp hb).2
      show a.port ≤ b.port
      omega
    have hstab : (D.filter (fun x => x.port == p)).Sublist res := by
      rw [hres]
      exact List.sublist_insertionSort hpw (List.filter_sublist D)
    have hsame : (D.filter (fun x => x.port == p)).filter (fun x => x.port == p) =
        D.filter (fun x => x.port == p) :=
      List.filter_eq_self.mpr fun a ha => (List.mem_filter.mp ha).2
    have hsubf : (D.filter (fun x => x.port == p)).Sublist
        (res.filter (fun x => x.port == p)) := by
      rw [← hsame]
      exact hstab.filter _
    have hlen : (res.filter (fun x => x.port == p)).length =
        (D.filter (fun x => x.port == p)).length :=
      (hperm.filter _).length_eq
    exact (hsubf.eq_of_length hlen.symm).symm

/-- Witness for C1 on `demoLines` (a duplicated triple and out-of-order
    ports): the result is `demoPorts`, its keys are pairwise distinct, it is
    sorted, `rec80` is the first parsed occurrence of its key, its key
    survives, and the port-80 records agree with the deduplicated sequence. -/
theorem discovery_dedup_sorted_witness :
    (demoPorts.Pairwise fun a b =>
      ¬(a.port = b.port ∧ a.pid = b.pid ∧ a.state = b.state)) ∧
    (demoPorts.Pairwise fun a b => a.port ≤ b.port) ∧
    ((demoLines.drop 1).filterMap parseLine).find? (keyMatch rec80) = some rec80 ∧
    (∃ r ∈ demoPorts,
      r.port = rec80.port ∧ r.pid = rec80.pid ∧ r.state = rec80.state) ∧
    demoPorts.filter (fun x => x.port == 80) =
      (((demoLines.drop 1).filterMap parseLine).foldl dedupStep []).filter
        (fun x => x.port == 80) := by
  have h := discovery_dedup_sorted demoLines demoPorts (by rfl)
  exact ⟨h.1, h.2.1, h.2.2.1 rec80 (by decide),
         h.2.2.2.1 rec80 (by decide), h.2.2.2.2 80⟩

/-- C5: `get_listening_ports` errors only when invoking lsof itself fails:
    the spawn error is propagated, every completed run yields `Ok`, a
    non-success exit status yields a successful empty result, and a
    header-only transcript yields a successful result of zero records. -/
theorem getListeningPorts_error_only_on_spawn_failure :
    (∀ e : Unit, get_listening_ports (Except.error e) = Except.error e) ∧
    (∀ (st : Bool) (ls : List Str),
      ∃ res, get_listening_ports (Except.ok (st, ls)) = Except.ok res) ∧
    (∀ ls : List Str, get_listening_ports (Except.ok (false, ls)) = Except.ok []) ∧
    (∀ hdr : Str, get_listening_ports (Except.ok (true, [hdr])) = Except.ok []) := by
  refine ⟨fun e => rfl, fun st ls => ?_, fun ls => rfl,
          fun hdr => by simp [get_listening_ports]⟩
  cases st
  · exact ⟨[], rfl⟩
  · exact ⟨_, rfl⟩

/-- The single-add half of C6: after `add`, the entries named `d.name` are
    exactly `[d]`. -/
theorem add_filter_name (ts : List TunnelConfig) (d : TunnelConfig) :
    (TunnelManager.add ts d).filter (fun x => x.name == d.name) = [d] := by
  simp only [TunnelManager.add, List.filter_append, List.filter_filter]
  have h1 : ts.filter (fun a => a.name == d.name && a.name != d.name) = [] := by
    apply List.filter_eq_nil_iff.mpr
    intro a _
    simp [bne]
  have h2 : List.filter (fun x => x.name == d.name) [d] = [d] := by simp
  rw [h1, h2, List.nil_append]

/-- C6: `TunnelManager::add` has replace-by-name semantics: after `add ts d`
    the entries named `d.name` are exactly `[d]`, `d` sits at the end,
    entries with other names are untouched, and adding two definitions with
    the same name in sequence leaves exactly one entry with that name,
    carrying the second definition's field values. -/
theorem add_replace_by_name (ts : List TunnelConfig) (d : TunnelConfig) :
    ((TunnelManager.add ts d).filter (fun x => x.name == d.name) = [d]) ∧
    ((TunnelManager.add ts d).getLast? = some d) ∧
    ((TunnelManager.add ts d).filter (fun x => x.name != d.name) =
      ts.filter (fun x => x.name != d.name)) ∧
    (∀ d2 : TunnelConfig, d.name = d2.name →
      (TunnelManager.add (TunnelManager.add ts d) d2).filter
        (fun x => x.name == d2.name) = [d2]) := by
  refine ⟨add_filter_name ts d, ?_, ?_, fun d2 _ => add_filter_name _ d2⟩
  · simp [TunnelManager.add]
  · simp only [TunnelManager.add, List.filter_append, List.filter_filter]
    have h2 : List.filter (fun x => x.name != d.name) [d] = [] := by simp
    rw [h2, List.append_nil]
    congr 1
    funext a
    simp [Bool.and_self]

/-- Witness for C6 at concrete inputs: adding `tunX` then `tunX2` (same name
    `x`, different fields) leaves exactly `[tunX2]` among the entries named
    `x`. -/
theorem add_replace_by_name_witness :
    (TunnelManager.add (TunnelManager.add [] tunX) tunX2).filter
      (fun x => x.name == tunX2.name) = [tunX2] :=
  (add_replace_by_name [] tunX).2.2.2 tunX2 rfl

/-- C9: `disconnect` on an already-disconnected tunnel (no recorded pid and
    no ssh process found on its local port) is a no-op: no kill is issued,
    the call succeeds, and the tunnel is unchanged. -/
theorem disconnect_idempotent_on_disconnected (env : OsEnv) (t : TunnelConfig)
    (h1 : t.process = none)
    (h2 : TunnelConfig.find_ssh_pid env t = none) :
    TunnelConfig.disconnect env t = (Except.ok (), t, []) := by
  simp [TunnelConfig.disconnect, h1, h2]

/-- Witness for C9: a disconnected tunnel in an environment in which lsof
    finds nothing. -/
theorem disconnect_idempotent_on_disconnected_witness :
    TunnelConfig.disconnect envDown tunY = (Except.ok (), tunY, []) :=
  disconnect_idempotent_on_disconnected envDown tunY rfl rfl

/-- C8: `disconnect` kills the recorded pid when one is recorded, otherwise
    the pid re-derived by `find_ssh_pid`; whenever it returns `Ok` the
    recorded pid is cleared; and a `kill` that ran but failed (the target
    already dead) is tolerated: the call still succeeds and clears the pid. -/
theorem disconnect_spec (env : OsEnv) (t : TunnelConfig) :
    (∀ pid, t.process = some pid →
      (TunnelConfig.disconnect env t).2.2 = [pid]) ∧
    (∀ pid, t.process = none → TunnelConfig.find_ssh_pid env t = some pid →
      (TunnelConfig.disconnect env t).2.2 = [pid]) ∧
    (∀ u, (TunnelConfig.disconnect env t).1 = Except.ok u →
      (TunnelConfig.disconnect env t).2.1.process = none) ∧
    (∀ pid b, t.process = some pid → env.killOk pid = some b →
      TunnelConfig.disconnect env t =
        (Except.ok (), { t with process := none }, [pid])) := by
  refine ⟨?_, ?_, ?_, ?_⟩
  · intro pid h
    cases hk : env.killOk pid <;> simp [TunnelConfig.disconnect, h, hk]
  · intro pid h1 h2
    cases hk : env.killOk pid <;> simp [TunnelConfig.disconnect, h1, h2, hk]
  · intro u
    cases hp : t.process with
    | some pid =>
      cases hk : env.killOk pid <;>
        simp [TunnelConfig.disconnect, hp, hk]
    | none =>
      cases hf : TunnelConfig.find_ssh_pid env t with
      | some pid =>
        cases hk : env.killOk pid <;>
          simp [TunnelConfig.disconnect, hp, hf, hk]
      | none => simp [TunnelConfig.disconnect, hp, hf]
  · intro pid b h hk
    simp [TunnelConfig.disconnect, h, hk]

/-- Witness for C8: killing the recorded pid of `tunX` in an environment
    where `kill` runs but reports failure still succeeds, clears the pid and
    records the single kill attempt. -/
theorem disconnect_spec_witness :
    TunnelConfig.disconnect envDead tunX =
      (Except.ok (), { tunX with process := none }, [777]) :=
  (disconnect_spec envDead tunX).2.2.2 777 false rfl rfl

/-- C7: `remove` leaves no entry with the removed name, removes
    unconditionally (even when the kill attempt fails to spawn, as in the
    `envDown` witness), and issues a kill against the first matching entry's
    pid — the recorded one, or the one re-derived by lookup. -/
theorem remove_spec (env : OsEnv) (ts : List TunnelConfig) (nm : String) :
    (∀ t ∈ (TunnelManager.remove env ts nm).1, ¬(t.name = nm)) ∧
    ((TunnelManager.remove env ts nm).1 = ts.filter (fun t => t.name != nm)) ∧
    (∀ t pid, ts.find? (fun x => x.name == nm) = some t →
      (t.process = some pid ∨
        (t.process = none ∧ TunnelConfig.find_ssh_pid env t = some pid)) →
      (TunnelManager.remove env ts nm).2 = [pid]) := by
  refine ⟨?_, rfl, ?_⟩
  · intro t ht
    have := (List.mem_filter.mp ht).2
    simpa using this
  · intro t pid hf hc
    simp only [TunnelManager.remove, hf]
    rcases hc with h | ⟨h1, h2⟩
    · cases hk : env.killOk pid <;> simp [TunnelConfig.disconnect, h, hk]
    · cases hk : env.killOk pid <;> simp [TunnelConfig.disconnect, h1, h2, hk]

/-- Witness for C7: removing `x` from `[tunX, tunY]` in an environment where
    `kill` cannot even be spawned still deletes the entry, leaves only `y`
    (whose name differs from `x`), and recorded the kill attempt on pid 777. -/
theorem remove_spec_witness :
    ¬(tunY.name = "x") ∧ (TunnelManager.remove envDown [tunX, tunY] "x").2 = [777] :=
  ⟨(remove_spec envDown [tunX, tunY] "x").1 tunY (by
      rw [(remove_spec envDown [tunX, tunY] "x").2.1]
      simp [tunX, tunY]),
   (remove_spec envDown [tunX, tunY] "x").2.2 tunX 777 rfl (Or.inl rfl)⟩

end Anchor
